import Mathlib

/-!
Shallow embedding of the multi-timeframe MACD signal-and-backtest engine of
the tradingBot repository.  Prices are modelled as rationals, timestamps as
natural numbers.  Each definition is translated from the named source
function; theorems settle the frozen claims about the code.
-/

namespace TradingBot

/-- The Python slice values[-period:] (the last `period` elements) for
period ≥ 1.  Used by the simple-moving-average helpers. -/
def takeLast (l : List ℚ) (n : ℕ) : List ℚ := l.drop (l.length - n)

/-- The EMA step of the spec, on a state that is already set:
alpha * x + (1 - alpha) * prev. -/
def emaStep (alpha prev x : ℚ) : ℚ := alpha * x + (1 - alpha) * prev

/-- Simple moving average of the last `n` values, as the spec words it. -/
def smaLast (values : List ℚ) (n : ℕ) : ℚ := (takeLast values n).sum / n

namespace Streaming

/-- The three periods of MACDIndicator.__init__ (src/indicators/macd.py and
src/utils/technical_indicators.py). -/
structure MACDConfig where
  fast_period : ℕ
  slow_period : ℕ
  signal_period : ℕ
deriving DecidableEq, Repr

/-- self.fast_alpha = 2 / (fast_period + 1). -/
def MACDConfig.fast_alpha (c : MACDConfig) : ℚ := 2 / (c.fast_period + 1)

/-- self.slow_alpha = 2 / (slow_period + 1). -/
def MACDConfig.slow_alpha (c : MACDConfig) : ℚ := 2 / (c.slow_period + 1)

/-- self.signal_alpha = 2 / (signal_period + 1). -/
def MACDConfig.signal_alpha (c : MACDConfig) : ℚ := 2 / (c.signal_period + 1)

/-- MACDIndicator._calculate_ema: price when prev_ema is None, else
alpha * price + (1 - alpha) * prev_ema. -/
def calculateEMA (price : ℚ) (prev_ema : Option ℚ) (alpha : ℚ) : ℚ :=
  match prev_ema with
  | none => price
  | some p => alpha * price + (1 - alpha) * p

/-- MACDIndicator._calculate_sma: sum(values[-period:]) / period. -/
def calculateSMA (values : List ℚ) (period : ℕ) : ℚ :=
  (takeLast values period).sum / period

/-- The mutable state of one MACDIndicator run: the accumulated series and
the three EMA registers (None encodes the unset Python value). -/
structure MACDState where
  timestamps : List ℕ
  prices : List ℚ
  macd_line : List ℚ
  signal_line : List ℚ
  histogram : List ℚ
  fast_ema : Option ℚ
  slow_ema : Option ℚ
  signal_ema : Option ℚ
deriving DecidableEq, Repr

/-- The state right after _initialize_indicator_data. -/
def initMACDState : MACDState := ⟨[], [], [], [], [], none, none, none⟩

/-- Shared tail of _process_new_price: histogram = macd - signal, then the
three values are appended to their series and returned. -/
def pushValues (st : MACDState) (timestamp : ℕ) (price : ℚ)
    (fe se sige : Option ℚ) (macd signal : ℚ) : MACDState × (ℚ × ℚ × ℚ) :=
  (⟨st.timestamps ++ [timestamp], st.prices ++ [price], st.macd_line ++ [macd],
    st.signal_line ++ [signal], st.histogram ++ [macd - signal], fe, se, sige⟩,
   (macd, signal, macd - signal))

/-- MACDIndicator._process_new_price.  After the appends, len(self.prices)
is st.prices.length + 1; the branch conditions below are written on that
count. -/
def processNewPrice (cfg : MACDConfig) (st : MACDState) (timestamp : ℕ)
    (price : ℚ) : MACDState × (ℚ × ℚ × ℚ) :=
  let n := st.prices.length + 1
  let prices := st.prices ++ [price]
  if n = 1 then
    -- first price point
    pushValues st timestamp price (some price) (some price) st.signal_ema 0 0
  else if n ≤ cfg.slow_period then
    -- building up to slow period
    let fast := if cfg.fast_period ≤ n then calculateSMA prices cfg.fast_period
                else calculateEMA price st.fast_ema cfg.fast_alpha
    let slow := if n = cfg.slow_period then calculateSMA prices cfg.slow_period
                else calculateEMA price st.slow_ema cfg.slow_alpha
    let macd := fast - slow
    let signal := match st.signal_ema with
                  | some s => s
                  | none => macd
    pushValues st timestamp price (some fast) (some slow) st.signal_ema macd signal
  else
    -- full EMA calculation
    let fast := calculateEMA price st.fast_ema cfg.fast_alpha
    let slow := calculateEMA price st.slow_ema cfg.slow_alpha
    let macd := fast - slow
    if cfg.signal_period ≤ st.macd_line.length then
      let s := calculateEMA macd st.signal_ema cfg.signal_alpha
      pushValues st timestamp price (some fast) (some slow) (some s) macd s
    else
      let temp_macd := st.macd_line ++ [macd]
      if cfg.signal_period ≤ temp_macd.length then
        let s := (takeLast temp_macd cfg.signal_period).sum / cfg.signal_period
        pushValues st timestamp price (some fast) (some slow) (some s) macd s
      else
        let signal := match st.signal_ema with
                      | some s => s
                      | none => macd
        pushValues st timestamp price (some fast) (some slow) st.signal_ema macd signal

/-- Feeding a sequence of (timestamp, price) rows one at a time into a fresh
indicator. -/
def macdRun (cfg : MACDConfig) (rows : List (ℕ × ℚ)) : MACDState :=
  rows.foldl (fun st r => (processNewPrice cfg st r.1 r.2).1) initMACDState

/-- One line of the input price log (stock_data csv): either it parses into a
(timestamp, price) row or it is skipped by _read_new_data. -/
inductive LogLine where
  | valid (timestamp : ℕ) (price : ℚ)
  | malformed
deriving DecidableEq

/-- The parse step inside _read_new_data: a malformed line is skipped. -/
def LogLine.parse : LogLine → Option (ℕ × ℚ)
  | .valid t p => some (t, p)
  | .malformed => none

/-- The full streaming processor state: indicator data, the resume offset
self.last_processed_line, and the rows appended to the output file. -/
structure IndicatorState where
  macd : MACDState
  last_processed_line : ℕ
  output : List (ℕ × ℚ × ℚ × ℚ × ℚ)
deriving DecidableEq

/-- The processor right after __init__ (empty output file written). -/
def initIndicatorState : IndicatorState := ⟨initMACDState, 0, []⟩

/-- BaseIndicator._read_new_data on an existing input file: the lines from
self.last_processed_line onward are parsed (skipping malformed ones) and
self.last_processed_line becomes the current line count. -/
def readNewData (lines : List LogLine) (st : IndicatorState) :
    List (ℕ × ℚ) × ℕ :=
  ((lines.drop st.last_processed_line).filterMap LogLine.parse, lines.length)

/-- BaseIndicator.update / MACDIndicator.update: process each new row,
append one output row per processed row, and return the new-row count. -/
def update (cfg : MACDConfig) (lines : List LogLine) (st : IndicatorState) :
    IndicatorState × ℕ :=
  let d := readNewData lines st
  let st' := d.1.foldl
    (fun acc r =>
      let p := processNewPrice cfg acc.macd r.1 r.2
      { acc with
        macd := p.1
        output := acc.output ++ [(r.1, r.2, p.2.1, p.2.2.1, p.2.2.2)] })
    { st with last_processed_line := d.2 }
  (st', d.1.length)

end Streaming

namespace Strategy

/-- pandas Series.ewm(span, adjust := false).mean() after the first element:
each output is alpha * x + (1 - alpha) * previous output. -/
def ewmFrom (alpha : ℚ) (prev : ℚ) : List ℚ → List ℚ
  | [] => []
  | x :: xs => emaStep alpha prev x :: ewmFrom alpha (emaStep alpha prev x) xs

/-- pandas Series.ewm(span, adjust := false).mean(): the first output is the
first input, then the recursive EMA with alpha = 2 / (span + 1). -/
def ewmMean (alpha : ℚ) : List ℚ → List ℚ
  | [] => []
  | x :: xs => x :: ewmFrom alpha x xs

/-- alpha = 2 / (span + 1) for ewm(span, adjust := false). -/
def spanAlpha (span : ℕ) : ℚ := 2 / (span + 1)

/-- (MACD > Signal) & (MACD.shift(1) <= Signal.shift(1)), elementwise over
the two aligned columns; `prev` carries the shifted pair, starting as none
(the NaN the shift puts in front, which compares as False). -/
def crossUp (prev : Option (ℚ × ℚ)) : List ℚ → List ℚ → List Bool
  | m :: ms, s :: ss =>
    (decide (m > s) && (match prev with
      | some q => decide (q.1 ≤ q.2)
      | none => false)) :: crossUp (some (m, s)) ms ss
  | _, _ => []

/-- (MACD < Signal) & (MACD.shift(1) >= Signal.shift(1)), elementwise. -/
def crossDown (prev : Option (ℚ × ℚ)) : List ℚ → List ℚ → List Bool
  | m :: ms, s :: ss =>
    (decide (m < s) && (match prev with
      | some q => decide (q.1 ≥ q.2)
      | none => false)) :: crossDown (some (m, s)) ms ss
  | _, _ => []

/-- The columns MACDStrategy.generate_signals adds to the frame. -/
structure SignalColumns where
  macd : List ℚ
  signal : List ℚ
  macd_histogram : List ℚ
  buy_signal : List Bool
  sell_signal : List Bool
deriving DecidableEq, Repr

/-- MACDStrategy.generate_signals on the close column:
EMA_12 = close.ewm(fast).mean(), EMA_26 = close.ewm(slow).mean(),
MACD = EMA_12 - EMA_26, Signal = MACD.ewm(signal).mean(),
MACD_Histogram = MACD - Signal, and the two crossover flag columns. -/
def generateSignals (fast_period slow_period signal_period : ℕ)
    (closes : List ℚ) : SignalColumns :=
  let ema12 := ewmMean (spanAlpha fast_period) closes
  let ema26 := ewmMean (spanAlpha slow_period) closes
  let macd := List.zipWith (· - ·) ema12 ema26
  let signal := ewmMean (spanAlpha signal_period) macd
  { macd := macd
    signal := signal
    macd_histogram := List.zipWith (· - ·) macd signal
    buy_signal := crossUp none macd signal
    sell_signal := crossDown none macd signal }

/-- One row of the signal-flagged frame walked by calculate_profit: the
index (timestamp), the close price and the two flag columns. -/
structure Row where
  ts : ℕ
  close : ℚ
  buy : Bool
  sell : Bool
deriving DecidableEq, Repr

/-- A row of the trades DataFrame built by calculate_profit. -/
structure Trade where
  buy_date : ℕ
  sell_date : ℕ
  buy_price : ℚ
  sell_price : ℚ
  profit : ℚ
  return_pct : ℚ
deriving DecidableEq, Repr

/-- The open Position: {"buy_price": ..., "buy_date": ...}. -/
structure Position where
  buy_price : ℚ
  buy_date : ℕ
deriving DecidableEq, Repr

/-- The trade record appended when a position closes:
profit = (sell_price - buy_price) * quantity and
return_pct = (sell_price - buy_price) / buy_price * 100. -/
def mkTrade (quantity : ℕ) (pos : Position) (row : Row) : Trade :=
  { buy_date := pos.buy_date
    sell_date := row.ts
    buy_price := pos.buy_price
    sell_price := row.close
    profit := (row.close - pos.buy_price) * quantity
    return_pct := (row.close - pos.buy_price) / pos.buy_price * 100 }

/-- The loop body of MACDStrategy.calculate_profit:
if row Buy_Signal and position is None, enter long; elif row Sell_Signal
and position is not None, append the trade and go flat; else no change. -/
def profitStep (quantity : ℕ) :
    List Trade × Option Position → Row → List Trade × Option Position
  | (trades, none), row =>
    if row.buy then (trades, some ⟨row.close, row.ts⟩) else (trades, none)
  | (trades, some pos), row =>
    if row.sell then (trades ++ [mkTrade quantity pos row], none)
    else (trades, some pos)

/-- MACDStrategy.calculate_profit: walk the rows in order, collect the
closed trades and return them with total profit = sum of trade profits
(0.0 when no trade closed). -/
def calculateProfit (quantity : ℕ) (rows : List Row) : List Trade × ℚ :=
  let trades := (rows.foldl (profitStep quantity) ([], none)).1
  (trades, (trades.map Trade.profit).sum)

/-- max over a nonempty profit column (pandas Series.max); 0 is never used
because get_strategy_stats only reduces nonempty trade lists this way. -/
def seriesMax : List ℚ → ℚ
  | [] => 0
  | x :: xs => xs.foldl max x

/-- min over a nonempty profit column (pandas Series.min). -/
def seriesMin : List ℚ → ℚ
  | [] => 0
  | x :: xs => xs.foldl min x

/-- MACDStrategy.get_strategy_stats as the returned dictionary: an ordered
list of (key, value) pairs exactly as the two dict literals write them.
total_profit comes from calculate_profit, i.e. the sum of trade profits. -/
def getStrategyStats (trades : List Trade) : List (String × ℚ) :=
  let total_profit := (trades.map Trade.profit).sum
  if trades.isEmpty then
    [("total_trades", 0), ("total_profit", 0), ("win_rate", 0),
     ("avg_profit_per_trade", 0), ("max_profit", 0), ("max_loss", 0)]
  else
    let winning_trades := trades.filter (fun t => t.profit > 0)
    let losing_trades := trades.filter (fun t => t.profit < 0)
    [("total_trades", (trades.length : ℚ)),
     ("total_profit", total_profit),
     ("win_rate", ((winning_trades.length : ℚ) / trades.length) * 100),
     ("avg_profit_per_trade", total_profit / trades.length),
     ("avg_return_pct", (trades.map Trade.return_pct).sum / trades.length),
     ("max_profit", seriesMax (trades.map Trade.profit)),
     ("max_loss", seriesMin (trades.map Trade.profit)),
     ("winning_trades", (winning_trades.length : ℚ)),
     ("losing_trades", (losing_trades.length : ℚ))]

/-- The strategy input frame: its column names and, per row, the index
timestamp and the close value (none models a NaN close). -/
structure PriceDF where
  cols : List String
  rows : List (ℕ × Option ℚ)
deriving DecidableEq, Repr

/-- The distinct ValueError messages of MACDStrategy._validate_inputs, one
constructor per raise site. -/
inductive ValidationError where
  | emptyDataFrame
  | missingCloseColumn
  | insufficientData
  | nonPositiveQuantity
  | nonPositivePeriod
  | fastNotLessThanSlow
  | nanClose
  | nonPositiveClose
deriving DecidableEq, Repr

/-- MIN_DATA_POINTS = 50. -/
def MIN_DATA_POINTS : ℕ := 50

/-- MACDStrategy._validate_inputs, check for check in source order.
quantity and the periods are naturals here, so the Python checks
`x <= 0` become `x = 0`. -/
def validateInputs (df : PriceDF) (quantity fast_period slow_period
    signal_period : ℕ) : Except ValidationError Unit :=
  if df.rows.isEmpty then .error .emptyDataFrame
  else if "close" ∉ df.cols then .error .missingCloseColumn
  else if df.rows.length < MIN_DATA_POINTS then .error .insufficientData
  else if quantity = 0 then .error .nonPositiveQuantity
  else if fast_period = 0 ∨ slow_period = 0 ∨ signal_period = 0 then
    .error .nonPositivePeriod
  else if slow_period ≤ fast_period then .error .fastNotLessThanSlow
  else if df.rows.any (fun r => r.2.isNone) then .error .nanClose
  else if df.rows.any (fun r => r.2.getD 1 ≤ 0) then .error .nonPositiveClose
  else .ok ()

/-- The validated strategy object. -/
structure MACDStrategy where
  timestamps : List ℕ
  closes : List ℚ
  quantity : ℕ
  fast_period : ℕ
  slow_period : ℕ
  signal_period : ℕ
deriving DecidableEq, Repr

/-- MACDStrategy.__init__: validate, then keep a copy of the frame. -/
def mkStrategy (df : PriceDF) (quantity fast_period slow_period
    signal_period : ℕ) : Except ValidationError MACDStrategy :=
  match validateInputs df quantity fast_period slow_period signal_period with
  | .error e => .error e
  | .ok _ => .ok
    { timestamps := df.rows.map Prod.fst
      closes := df.rows.map (fun r => r.2.getD 0)
      quantity := quantity
      fast_period := fast_period
      slow_period := slow_period
      signal_period := signal_period }

/-- The signal-flagged rows of the strategy frame after generate_signals:
each row keeps its timestamp and close and gains the two flags. -/
def MACDStrategy.signalRows (s : MACDStrategy) : List Row :=
  let c := generateSignals s.fast_period s.slow_period s.signal_period s.closes
  List.zipWith (fun (tc : ℕ × ℚ) (bs : Bool × Bool) =>
      ⟨tc.1, tc.2, bs.1, bs.2⟩)
    (s.timestamps.zip s.closes) (c.buy_signal.zip c.sell_signal)

/-- calculate_profit on the strategy object. -/
def MACDStrategy.profit (s : MACDStrategy) : List Trade × ℚ :=
  calculateProfit s.quantity s.signalRows

end Strategy

namespace Backtest

open Strategy

/-- One OHLCV bar; `minute` is the timestamp in minutes and `opn` is the
open price (open is a Lean keyword). -/
structure Bar where
  minute : ℕ
  opn : ℚ
  high : ℚ
  low : ℚ
  close : ℚ
  volume : ℚ
deriving DecidableEq, Repr

/-- One resample bucket: open = first, high = max, low = min, close = last,
volume = sum, labelled by the start of its 10-minute window. -/
def aggGroup (k : ℕ) (b : Bar) (grp : List Bar) : Bar :=
  { minute := 10 * k
    opn := b.opn
    high := (grp.map Bar.high).foldl max b.high
    low := (grp.map Bar.low).foldl min b.low
    close := (grp.map Bar.close).foldl (fun _ y => y) b.close
    volume := b.volume + (grp.map Bar.volume).sum }

/-- One pass of the bucketing: `first` and `grp` hold the bucket being
assembled; a bar in the same 10-minute window joins it, any other bar
closes it and starts the next one. -/
def resample10mGo (first : Bar) (grp : List Bar) : List Bar → List Bar
  | [] => [aggGroup (first.minute / 10) first grp]
  | x :: xs =>
    if x.minute / 10 = first.minute / 10 then
      resample10mGo first (grp ++ [x]) xs
    else
      aggGroup (first.minute / 10) first grp :: resample10mGo x [] xs

/-- df_1m.resample(10min).agg(open first, high max, low min, close last,
volume sum).dropna() on bars sorted by time: consecutive bars whose minute
lies in the same 10-minute window form one output bar, and windows with no
input bar produce only NaN rows, which dropna removes. -/
def resample10m (bars : List Bar) : List Bar :=
  match bars with
  | [] => []
  | b :: rest => resample10mGo b [] rest

/-- _aggregate_to_10m once the 1m file loaded: fewer than 10 one-minute
bars is INSUFFICIENT DATA (None), otherwise the resampled bars. -/
def aggregateTo10m (df_1m : List Bar) : Option (List Bar) :=
  if df_1m.length < 10 then none else some (resample10m df_1m)

/-- What loading one timeframe's data produced inside the orchestrator
loop: load_local_data returned None, or returned a frame. -/
inductive LoadOutcome where
  | missing
  | found (df : PriceDF)
deriving DecidableEq, Repr

/-- One value of the per-timeframe results mapping: either the stored stats
entry or an entry carrying only the error field. -/
inductive TFEntry where
  | ok (data_points : ℕ) (trades : List Trade) (total_profit : ℚ)
      (strategy_stats : List (String × ℚ))
  | err (msg : String)
deriving DecidableEq, Repr

/-- Whether the entry carries the error field. -/
def TFEntry.hasError : TFEntry → Bool
  | .err _ => true
  | .ok _ _ _ _ => false

/-- The total_profit field used by the best-performing comparison. -/
def TFEntry.totalProfit : TFEntry → ℚ
  | .ok _ _ p _ => p
  | .err _ => 0

/-- apply_strategies: build the MACDStrategy with quantity 100 and default
periods, compute trades, total profit and stats; any exception inside (in
particular a ValueError from _validate_inputs) is caught and turned into
(empty DataFrame, 0.0, empty dict). -/
def applyStrategies (df : PriceDF) : List Trade × ℚ × List (String × ℚ) :=
  match mkStrategy df 100 12 26 9 with
  | .error _ => ([], 0, [])
  | .ok s =>
    let p := s.profit
    (p.1, p.2, getStrategyStats p.1)

/-- One iteration of the run_multi_timeframe_analysis loop.  A None from
load_local_data makes df_timeframe.empty raise AttributeError, which the
per-timeframe except turns into an error entry; an empty frame is skipped
with no entry (continue); otherwise the strategy results are stored. -/
def analyzeTimeframe : LoadOutcome → Option TFEntry
  | .missing => some (.err "NoneType object has no attribute empty")
  | .found df =>
    if df.rows.isEmpty then none
    else
      let r := applyStrategies df
      some (.ok df.rows.length r.1 r.2.1 r.2.2)

/-- run_multi_timeframe_analysis over its timeframe loop: every timeframe
is analyzed, failures included, and the results mapping collects one entry
per non-skipped timeframe in iteration order. -/
def runMultiTimeframe (loads : List (String × LoadOutcome)) :
    List (String × TFEntry) :=
  loads.filterMap fun l => (analyzeTimeframe l.2).map (fun e => (l.1, e))

/-- The best-performing selection of print_comprehensive_results:
valid_results filters out entries with an error field, then Python max by
total_profit keeps the first-seen maximum. -/
def bestPerforming (results : List (String × TFEntry)) :
    Option (String × TFEntry) :=
  match results.filter (fun r => ¬ r.2.hasError) with
  | [] => none
  | v :: vs =>
    some (vs.foldl (fun best x =>
      if x.2.totalProfit > best.2.totalProfit then x else best) v)

end Backtest

namespace Streaming

/-- Processing one further observation after a run: the step taken by the
(rows.length + 1)-th input price. -/
def streamStep (cfg : MACDConfig) (rows : List (ℕ × ℚ)) (t : ℕ) (p : ℚ) :
    MACDState × (ℚ × ℚ × ℚ) :=
  processNewPrice cfg (macdRun cfg rows) t p

end Streaming

namespace Strategy

/-- The buy/sell timestamps of a trade list, flattened in order. -/
def tradeTimes (trades : List Trade) : List ℕ :=
  trades.flatMap fun t => [t.buy_date, t.sell_date]

/-- The timestamps recorded in a tracker state: all trade timestamps
followed by the open position's buy timestamp, if any. -/
def stateTimes (st : List Trade × Option Position) : List ℕ :=
  tradeTimes st.1 ++ (match st.2 with
    | some p => [p.buy_date]
    | none => [])

/-- len(trades_df[trades_df profit > 0]). -/
def winningCount (trades : List Trade) : ℕ :=
  (trades.filter (fun t => t.profit > 0)).length

/-- len(trades_df[trades_df profit < 0]). -/
def losingCount (trades : List Trade) : ℕ :=
  (trades.filter (fun t => t.profit < 0)).length

/-- The trades with exactly zero profit, counted by neither side. -/
def zeroCount (trades : List Trade) : ℕ :=
  (trades.filter (fun t => t.profit = 0)).length

end Strategy

namespace Backtest

/-- Ten one-minute bars starting at minute s whose OHLCV values are
1, 2, ..., 10 (bar i carries the value i + 1 in every field). -/
def tenBars (s : ℕ) : List Bar :=
  (List.range 10).map fun i =>
    ⟨s + i, (i : ℚ) + 1, (i : ℚ) + 1, (i : ℚ) + 1, (i : ℚ) + 1, (i : ℚ) + 1⟩

/-- A frame with a close column and 30 rows of positive closes: enough to
load and pass the empty check, but below MIN_DATA_POINTS. -/
def smallDF30 : Strategy.PriceDF :=
  ⟨["close"], (List.range 30).map fun i => (i, some 1)⟩

end Backtest

/-! ## Theorems: streaming MACD processor -/

namespace Streaming

theorem processNewPrice_prices (cfg : MACDConfig) (st : MACDState) (t : ℕ)
    (p : ℚ) : (processNewPrice cfg st t p).1.prices = st.prices ++ [p] := by
  simp only [processNewPrice, pushValues]
  split_ifs <;> rfl

theorem processNewPrice_emit (cfg : MACDConfig) (st : MACDState) (t : ℕ)
    (p : ℚ) :
    (processNewPrice cfg st t p).1.macd_line
        = st.macd_line ++ [(processNewPrice cfg st t p).2.1] ∧
    (processNewPrice cfg st t p).1.signal_line
        = st.signal_line ++ [(processNewPrice cfg st t p).2.2.1] ∧
    (processNewPrice cfg st t p).1.histogram
        = st.histogram ++ [(processNewPrice cfg st t p).2.2.2] ∧
    (processNewPrice cfg st t p).2.2.2
        = (processNewPrice cfg st t p).2.1 - (processNewPrice cfg st t p).2.2.1 ∧
    (∃ f, (processNewPrice cfg st t p).1.fast_ema = some f) ∧
    (∃ s, (processNewPrice cfg st t p).1.slow_ema = some s) := by
  simp only [processNewPrice, pushValues]
  split_ifs <;> exact ⟨rfl, rfl, rfl, rfl, ⟨_, rfl⟩, ⟨_, rfl⟩⟩

theorem macdFold_prices (cfg : MACDConfig) :
    ∀ (rows : List (ℕ × ℚ)) (st : MACDState),
    (rows.foldl (fun st r => (processNewPrice cfg st r.1 r.2).1) st).prices
      = st.prices ++ rows.map Prod.snd
  | [], st => by simp
  | r :: rs, st => by
    rw [List.foldl_cons, macdFold_prices cfg rs, processNewPrice_prices]
    simp

theorem macdRun_prices (cfg : MACDConfig) (rows : List (ℕ × ℚ)) :
    (macdRun cfg rows).prices = rows.map Prod.snd := by
  simpa [initMACDState] using macdFold_prices cfg rows initMACDState

theorem macdRun_prices_length (cfg : MACDConfig) (rows : List (ℕ × ℚ)) :
    (macdRun cfg rows).prices.length = rows.length := by
  rw [macdRun_prices, List.length_map]

theorem macdFold_macd_line_length (cfg : MACDConfig) :
    ∀ (rows : List (ℕ × ℚ)) (st : MACDState),
    (rows.foldl (fun st r => (processNewPrice cfg st r.1 r.2).1) st).macd_line.length
      = st.macd_line.length + rows.length
  | [], st => by simp
  | r :: rs, st => by
    rw [List.foldl_cons, macdFold_macd_line_length cfg rs,
      (processNewPrice_emit cfg st r.1 r.2).1]
    simp
    omega

theorem macdRun_macd_line_length (cfg : MACDConfig) (rows : List (ℕ × ℚ)) :
    (macdRun cfg rows).macd_line.length = rows.length := by
  simpa [initMACDState] using macdFold_macd_line_length cfg rows initMACDState

theorem macdRun_append (cfg : MACDConfig) (rows : List (ℕ × ℚ)) (r : ℕ × ℚ) :
    macdRun cfg (rows ++ [r]) = (processNewPrice cfg (macdRun cfg rows) r.1 r.2).1 := by
  simp [macdRun, List.foldl_append]

theorem macdRun_emas_some (cfg : MACDConfig) (rows : List (ℕ × ℚ))
    (h : rows ≠ []) :
    (∃ f, (macdRun cfg rows).fast_ema = some f) ∧
    (∃ s, (macdRun cfg rows).slow_ema = some s) := by
  obtain ⟨rs, r, rfl⟩ := (List.eq_nil_or_concat rows).resolve_left h
  rw [List.concat_eq_append, macdRun_append]
  exact ⟨(processNewPrice_emit cfg _ r.1 r.2).2.2.2.2.1,
    (processNewPrice_emit cfg _ r.1 r.2).2.2.2.2.2⟩

theorem processNewPrice_warmup (cfg : MACDConfig) (st : MACDState) (t : ℕ)
    (p : ℚ) (f s : ℚ) (hf : st.fast_ema = some f) (hs : st.slow_ema = some s)
    (h1 : 1 ≤ st.prices.length) (h2 : st.prices.length + 1 ≤ cfg.slow_period) :
    (processNewPrice cfg st t p).1.fast_ema =
      some (if cfg.fast_period ≤ st.prices.length + 1
            then smaLast (st.prices ++ [p]) cfg.fast_period
            else emaStep cfg.fast_alpha f p) ∧
    (processNewPrice cfg st t p).1.slow_ema =
      some (if st.prices.length + 1 = cfg.slow_period
            then smaLast (st.prices ++ [p]) cfg.slow_period
            else emaStep cfg.slow_alpha s p) ∧
    (processNewPrice cfg st t p).2.1 =
      (if cfg.fast_period ≤ st.prices.length + 1
       then smaLast (st.prices ++ [p]) cfg.fast_period
       else emaStep cfg.fast_alpha f p) -
      (if st.prices.length + 1 = cfg.slow_period
       then smaLast (st.prices ++ [p]) cfg.slow_period
       else emaStep cfg.slow_alpha s p) ∧
    (processNewPrice cfg st t p).1.signal_ema = st.signal_ema := by
  simp only [processNewPrice, pushValues]
  rw [if_neg (by omega), if_pos (by omega), hf, hs]
  simp only [calculateSMA, smaLast, calculateEMA, emaStep]
  exact ⟨trivial, trivial, trivial, trivial⟩

theorem processNewPrice_post (cfg : MACDConfig) (st : MACDState) (t : ℕ)
    (p : ℚ) (f s : ℚ) (hf : st.fast_ema = some f) (hs : st.slow_ema = some s)
    (hsp : 1 ≤ st.prices.length)
    (h2 : cfg.slow_period < st.prices.length + 1) :
    (processNewPrice cfg st t p).1.fast_ema = some (emaStep cfg.fast_alpha f p) ∧
    (processNewPrice cfg st t p).1.slow_ema = some (emaStep cfg.slow_alpha s p) ∧
    (processNewPrice cfg st t p).2.1 =
      emaStep cfg.fast_alpha f p - emaStep cfg.slow_alpha s p ∧
    (cfg.signal_period ≤ st.macd_line.length →
      (processNewPrice cfg st t p).2.2.1 =
        (match st.signal_ema with
         | some e => emaStep cfg.signal_alpha e ((processNewPrice cfg st t p).2.1)
         | none => (processNewPrice cfg st t p).2.1) ∧
      (processNewPrice cfg st t p).1.signal_ema =
        some ((processNewPrice cfg st t p).2.2.1)) ∧
    (st.macd_line.length + 1 = cfg.signal_period →
      (processNewPrice cfg st t p).2.2.1 =
        smaLast (st.macd_line ++ [(processNewPrice cfg st t p).2.1])
          cfg.signal_period ∧
      (processNewPrice cfg st t p).1.signal_ema =
        some ((processNewPrice cfg st t p).2.2.1)) ∧
    (st.macd_line.length + 1 < cfg.signal_period →
      (processNewPrice cfg st t p).2.2.1 =
        (match st.signal_ema with
         | some e => e
         | none => (processNewPrice cfg st t p).2.1) ∧
      (processNewPrice cfg st t p).1.signal_ema = st.signal_ema) := by
  have h1 : ¬ (st.prices.length + 1 = 1) := by omega
  have h3 : ¬ (st.prices.length + 1 ≤ cfg.slow_period) := by omega
  simp only [processNewPrice, pushValues]
  rw [if_neg h1, if_neg h3, hf, hs]
  refine ⟨?_, ?_, ?_, ?_, ?_, ?_⟩
  · split_ifs <;> simp [calculateEMA, emaStep]
  · split_ifs <;> simp [calculateEMA, emaStep]
  · split_ifs <;> simp [calculateEMA, emaStep]
  · intro hsig
    rw [if_pos hsig]
    cases st.signal_ema <;> simp [calculateEMA, emaStep]
  · intro hseed
    have hn : ¬ (cfg.signal_period ≤ st.macd_line.length) := by omega
    rw [if_neg hn, if_pos (by simp; omega)]
    simp [calculateEMA, emaStep, smaLast, calculateSMA]
  · intro hlt
    have hn : ¬ (cfg.signal_period ≤ st.macd_line.length) := by omega
    rw [if_neg hn, if_neg (by simp; omega)]
    cases st.signal_ema <;> simp [calculateEMA, emaStep]

/-- Claim C1: fed one price at a time, the n-th processed observation of the
Streaming MACD Processor follows the warm-up state machine.  For
2 ≤ n ≤ slow_period the fast EMA becomes the simple moving average of the
last fast_period prices once n ≥ fast_period and an EMA step otherwise, the
slow EMA becomes a simple moving average exactly when n = slow_period and
an EMA step otherwise, and macd = fast - slow.  For n > slow_period both
EMAs take EMA steps; the signal line is EMA-updated once at least
signal_period MACD values were previously recorded, is seeded as the simple
average of the last signal_period MACD values exactly when that count is
first reached, and otherwise repeats its last value (or macd when none
exists).  The emitted triple is appended to the output series and
histogram = macd - signal at every step. -/
theorem macd_stream_state_machine (cfg : MACDConfig) (rows : List (ℕ × ℚ))
    (t : ℕ) (p : ℚ) (hslow : 1 ≤ cfg.slow_period) :
    ((streamStep cfg rows t p).1.macd_line
        = (macdRun cfg rows).macd_line ++ [(streamStep cfg rows t p).2.1] ∧
     (streamStep cfg rows t p).1.signal_line
        = (macdRun cfg rows).signal_line ++ [(streamStep cfg rows t p).2.2.1] ∧
     (streamStep cfg rows t p).1.histogram
        = (macdRun cfg rows).histogram ++ [(streamStep cfg rows t p).2.2.2] ∧
     (streamStep cfg rows t p).2.2.2
        = (streamStep cfg rows t p).2.1 - (streamStep cfg rows t p).2.2.1) ∧
    (2 ≤ rows.length + 1 → rows.length + 1 ≤ cfg.slow_period →
      ∃ f s, (macdRun cfg rows).fast_ema = some f ∧
        (macdRun cfg rows).slow_ema = some s ∧
        (streamStep cfg rows t p).1.fast_ema =
          some (if cfg.fast_period ≤ rows.length + 1
                then smaLast ((macdRun cfg rows).prices ++ [p]) cfg.fast_period
                else emaStep cfg.fast_alpha f p) ∧
        (streamStep cfg rows t p).1.slow_ema =
          some (if rows.length + 1 = cfg.slow_period
                then smaLast ((macdRun cfg rows).prices ++ [p]) cfg.slow_period
                else emaStep cfg.slow_alpha s p) ∧
        (streamStep cfg rows t p).2.1 =
          (if cfg.fast_period ≤ rows.length + 1
           then smaLast ((macdRun cfg rows).prices ++ [p]) cfg.fast_period
           else emaStep cfg.fast_alpha f p) -
          (if rows.length + 1 = cfg.slow_period
           then smaLast ((macdRun cfg rows).prices ++ [p]) cfg.slow_period
           else emaStep cfg.slow_alpha s p)) ∧
    (cfg.slow_period < rows.length + 1 →
      ∃ f s, (macdRun cfg rows).fast_ema = some f ∧
        (macdRun cfg rows).slow_ema = some s ∧
        (streamStep cfg rows t p).1.fast_ema = some (emaStep cfg.fast_alpha f p) ∧
        (streamStep cfg rows t p).1.slow_ema = some (emaStep cfg.slow_alpha s p) ∧
        (streamStep cfg rows t p).2.1
          = emaStep cfg.fast_alpha f p - emaStep cfg.slow_alpha s p ∧
        (cfg.signal_period ≤ rows.length →
          (streamStep cfg rows t p).2.2.1 =
            (match (macdRun cfg rows).signal_ema with
             | some e => emaStep cfg.signal_alpha e ((streamStep cfg rows t p).2.1)
             | none => (streamStep cfg rows t p).2.1) ∧
          (streamStep cfg rows t p).1.signal_ema
            = some ((streamStep cfg rows t p).2.2.1)) ∧
        (rows.length + 1 = cfg.signal_period →
          (streamStep cfg rows t p).2.2.1 =
            smaLast ((macdRun cfg rows).macd_line ++ [(streamStep cfg rows t p).2.1])
              cfg.signal_period ∧
          (streamStep cfg rows t p).1.signal_ema
            = some ((streamStep cfg rows t p).2.2.1)) ∧
        (rows.length + 1 < cfg.signal_period →
          (streamStep cfg rows t p).2.2.1 =
            (match (macdRun cfg rows).signal_ema with
             | some e => e
             | none => (streamStep cfg rows t p).2.1) ∧
          (streamStep cfg rows t p).1.signal_ema = (macdRun cfg rows).signal_ema)) := by
  have hlen := macdRun_prices_length cfg rows
  have hml := macdRun_macd_line_length cfg rows
  refine ⟨?_, ?_, ?_⟩
  · have h := processNewPrice_emit cfg (macdRun cfg rows) t p
    exact ⟨h.1, h.2.1, h.2.2.1, h.2.2.2.1⟩
  · intro h2 hle
    have hne : rows ≠ [] := by
      intro hnil
      rw [hnil] at h2
      simp at h2
    obtain ⟨⟨f, hf⟩, ⟨s, hs⟩⟩ := macdRun_emas_some cfg rows hne
    have hw := processNewPrice_warmup cfg (macdRun cfg rows) t p f s hf hs
      (by omega) (by omega)
    rw [hlen] at hw
    exact ⟨f, s, hf, hs, hw.1, hw.2.1, hw.2.2.1⟩
  · intro h2
    have hne : rows ≠ [] := by
      intro hnil
      rw [hnil] at h2
      simp at h2
      omega
    obtain ⟨⟨f, hf⟩, ⟨s, hs⟩⟩ := macdRun_emas_some cfg rows hne
    have hp := processNewPrice_post cfg (macdRun cfg rows) t p f s hf hs
      (by rw [hlen]; omega) (by rw [hlen]; omega)
    rw [hml] at hp
    exact ⟨f, s, hf, hs, hp.1, hp.2.1, hp.2.2.1, hp.2.2.2.1, hp.2.2.2.2.1,
      hp.2.2.2.2.2⟩

/-- Witness for C1 at a concrete input: with periods (2, 3, 2) and two prices
already processed, the third observation lands in the warm-up phase and the
fast EMA becomes the simple moving average of the last two prices. -/
theorem macd_stream_state_machine_witness :
    (streamStep ⟨2, 3, 2⟩ [(0, 10), (1, 11)] 2 12).1.fast_ema =
      some (smaLast ((macdRun ⟨2, 3, 2⟩ [(0, 10), (1, 11)]).prices ++ [12]) 2) := by
  obtain ⟨-, hw, -⟩ :=
    macd_stream_state_machine ⟨2, 3, 2⟩ [(0, 10), (1, 11)] 2 12 (by decide)
  obtain ⟨f, s, -, -, hfast, -, -⟩ := hw (by decide) (by decide)
  rw [hfast, if_pos (by decide)]

theorem processNewPrice_warmup_signal (cfg : MACDConfig) (st : MACDState)
    (t : ℕ) (p : ℚ) (hn : st.prices.length + 1 ≤ cfg.slow_period)
    (hsig : st.signal_ema = none) :
    (processNewPrice cfg st t p).2.2.1 = (processNewPrice cfg st t p).2.1 ∧
    (processNewPrice cfg st t p).1.signal_ema = none := by
  simp only [processNewPrice, pushValues]
  by_cases h1 : st.prices.length + 1 = 1
  · rw [if_pos h1]
    exact ⟨rfl, hsig⟩
  · rw [if_neg h1, if_pos hn, hsig]
    exact ⟨rfl, rfl⟩

theorem macdRun_warmup_lists (cfg : MACDConfig) (rows : List (ℕ × ℚ))
    (h : rows.length ≤ cfg.slow_period) :
    (macdRun cfg rows).signal_ema = none ∧
    (macdRun cfg rows).signal_line = (macdRun cfg rows).macd_line ∧
    (macdRun cfg rows).histogram = List.replicate rows.length 0 := by
  induction rows using List.reverseRecOn with
  | nil => simp [macdRun, initMACDState]
  | append_singleton rs r ih =>
    have hlen : (rs ++ [r]).length = rs.length + 1 := by simp
    rw [hlen] at h
    obtain ⟨ihsig, ihline, ihhist⟩ := ih (by omega)
    rw [macdRun_append, hlen]
    have hplen := macdRun_prices_length cfg rs
    have hsigstep := processNewPrice_warmup_signal cfg (macdRun cfg rs) r.1 r.2
      (by omega) ihsig
    have hemit := processNewPrice_emit cfg (macdRun cfg rs) r.1 r.2
    refine ⟨hsigstep.2, ?_, ?_⟩
    · rw [hemit.1, hemit.2.1, ihline, hsigstep.1]
    · rw [hemit.2.2.1, ihhist, hemit.2.2.2.1, hsigstep.1, sub_self,
        List.replicate_succ']

theorem macdFold_extends (cfg : MACDConfig) :
    ∀ (rows : List (ℕ × ℚ)) (st : MACDState),
    ∃ ms ss hs : List ℚ,
    (rows.foldl (fun st r => (processNewPrice cfg st r.1 r.2).1) st).macd_line
        = st.macd_line ++ ms ∧
    (rows.foldl (fun st r => (processNewPrice cfg st r.1 r.2).1) st).signal_line
        = st.signal_line ++ ss ∧
    (rows.foldl (fun st r => (processNewPrice cfg st r.1 r.2).1) st).histogram
        = st.histogram ++ hs
  | [], st => ⟨[], [], [], by simp, by simp, by simp⟩
  | r :: rs, st => by
    obtain ⟨ms, ss, hs, hm, hsl, hh⟩ :=
      macdFold_extends cfg rs ((processNewPrice cfg st r.1 r.2).1)
    have hemit := processNewPrice_emit cfg st r.1 r.2
    refine ⟨(processNewPrice cfg st r.1 r.2).2.1 :: ms,
      (processNewPrice cfg st r.1 r.2).2.2.1 :: ss,
      (processNewPrice cfg st r.1 r.2).2.2.2 :: hs, ?_, ?_, ?_⟩ <;>
      rw [List.foldl_cons]
    · rw [hm, hemit.1]
      simp
    · rw [hsl, hemit.2.1]
      simp
    · rw [hh, hemit.2.2.1]
      simp

/-- Claim C10: throughout the warm-up phase (observation n = i + 1 with
n ≤ slow_period) the signal EMA state remains unset, so the emitted signal
value equals the emitted macd value and the emitted histogram is exactly 0
at every one of those steps. -/
theorem macd_stream_warmup_histogram_zero (cfg : MACDConfig)
    (rows : List (ℕ × ℚ)) (i : ℕ) (hi : i < rows.length)
    (hs : i < cfg.slow_period) :
    (macdRun cfg (rows.take (i + 1))).signal_ema = none ∧
    (macdRun cfg rows).signal_line.getD i 0
      = (macdRun cfg rows).macd_line.getD i 0 ∧
    (macdRun cfg rows).histogram.getD i 1 = 0 := by
  have htk : (rows.take (i + 1)).length = i + 1 := by
    rw [List.length_take]
    omega
  obtain ⟨wsig, wline, whist⟩ :=
    macdRun_warmup_lists cfg (rows.take (i + 1)) (by omega)
  have hsplit : macdRun cfg rows
      = (rows.drop (i + 1)).foldl (fun st r => (processNewPrice cfg st r.1 r.2).1)
          (macdRun cfg (rows.take (i + 1))) := by
    rw [macdRun, macdRun, ← List.foldl_append, List.take_append_drop]
  obtain ⟨ms, ss, hsx, hm, hsl, hh⟩ := macdFold_extends cfg (rows.drop (i + 1))
    (macdRun cfg (rows.take (i + 1)))
  have hmlen : (macdRun cfg (rows.take (i + 1))).macd_line.length = i + 1 := by
    rw [macdRun_macd_line_length, htk]
  have hslen : (macdRun cfg (rows.take (i + 1))).signal_line.length = i + 1 := by
    rw [wline, hmlen]
  have hhlen : (macdRun cfg (rows.take (i + 1))).histogram.length = i + 1 := by
    rw [whist, List.length_replicate, htk]
  refine ⟨wsig, ?_, ?_⟩
  · rw [hsplit, hm, hsl, List.getD_append _ _ _ _ (by omega),
      List.getD_append _ _ _ _ (by omega), wline]
  · rw [hsplit, hh, List.getD_append _ _ _ _ (by omega), whist,
      List.getD_eq_getElem _ _ (by rw [List.length_replicate]; omega),
      List.getElem_replicate]

/-- Witness for C10 at a concrete input: with slow_period 4, the third
observation of a three-price run is still warm-up, so the signal EMA is
unset, signal equals macd and the histogram entry is zero. -/
theorem macd_stream_warmup_histogram_zero_witness :
    (2 : ℕ) < 3 ∧ (2 : ℕ) < 4 ∧
    ((macdRun ⟨2, 4, 2⟩ ([(0, 10), (1, 11), (2, 12)].take (2 + 1))).signal_ema
        = none ∧
     (macdRun ⟨2, 4, 2⟩ [(0, 10), (1, 11), (2, 12)]).signal_line.getD 2 0
        = (macdRun ⟨2, 4, 2⟩ [(0, 10), (1, 11), (2, 12)]).macd_line.getD 2 0 ∧
     (macdRun ⟨2, 4, 2⟩ [(0, 10), (1, 11), (2, 12)]).histogram.getD 2 1 = 0) :=
  ⟨by decide, by decide,
    macd_stream_warmup_histogram_zero ⟨2, 4, 2⟩ [(0, 10), (1, 11), (2, 12)] 2
      (by decide) (by decide)⟩

/-- Claim C9: calling update when the input log holds no rows beyond the
last processed offset appends nothing to the output, returns a count of
zero, and leaves the whole indicator state unchanged. -/
theorem macd_update_idempotent (cfg : MACDConfig) (lines : List LogLine)
    (st : IndicatorState) (h : st.last_processed_line = lines.length) :
    update cfg lines st = (st, 0) := by
  have key : lines.drop st.last_processed_line = [] := by
    rw [h]
    exact List.drop_length lines
  simp only [update, readNewData, key, List.filterMap_nil, List.foldl_nil,
    List.length_nil]
  rw [← h]

/-- Witness for C9: after one update call has consumed the single log line,
a second call on the same log is the identity and reports zero new rows. -/
theorem macd_update_idempotent_witness :
    update ⟨12, 26, 9⟩ [LogLine.valid 0 10]
        ((update ⟨12, 26, 9⟩ [LogLine.valid 0 10] initIndicatorState).1)
      = ((update ⟨12, 26, 9⟩ [LogLine.valid 0 10] initIndicatorState).1, 0) :=
  macd_update_idempotent ⟨12, 26, 9⟩ [LogLine.valid 0 10] _ (by rfl)

end Streaming

/-! ## Theorems: batch signal generator and position tracker -/

namespace Strategy

theorem ewmFrom_length (alpha : ℚ) :
    ∀ (prev : ℚ) (l : List ℚ), (ewmFrom alpha prev l).length = l.length
  | _, [] => rfl
  | prev, x :: xs => by
    simp [ewmFrom, ewmFrom_length alpha _ xs]

theorem ewmMean_length (alpha : ℚ) (l : List ℚ) :
    (ewmMean alpha l).length = l.length := by
  cases l with
  | nil => rfl
  | cons x xs => simp [ewmMean, ewmFrom_length]

theorem generateSignals_macd_length (fp sp gp : ℕ) (closes : List ℚ) :
    (generateSignals fp sp gp closes).macd.length = closes.length := by
  simp [generateSignals, ewmMean_length]

theorem generateSignals_signal_length (fp sp gp : ℕ) (closes : List ℚ) :
    (generateSignals fp sp gp closes).signal.length = closes.length := by
  simp [generateSignals, ewmMean_length]

theorem crossUp_getD_zero (ms ss : List ℚ) :
    (crossUp none ms ss).getD 0 false = false := by
  cases ms with
  | nil => rfl
  | cons m ms' =>
    cases ss with
    | nil => rfl
    | cons s ss' => simp [crossUp]

theorem crossDown_getD_zero (ms ss : List ℚ) :
    (crossDown none ms ss).getD 0 false = false := by
  cases ms with
  | nil => rfl
  | cons m ms' =>
    cases ss with
    | nil => rfl
    | cons s ss' => simp [crossDown]

theorem crossUp_getD : ∀ (ms ss : List ℚ) (prev : Option (ℚ × ℚ)) (t : ℕ),
    t < ms.length → t < ss.length →
    (crossUp prev ms ss).getD t false =
      (decide (ms.getD t 0 > ss.getD t 0) &&
        (match t with
         | 0 => (match prev with
                 | some q => decide (q.1 ≤ q.2)
                 | none => false)
         | t' + 1 => decide (ms.getD t' 0 ≤ ss.getD t' 0)))
  | [], _, _, t, h1, _ => by simp at h1
  | _ :: _, [], _, t, _, h2 => by simp at h2
  | m :: ms', s :: ss', prev, 0, _, _ => by
    cases prev <;> simp [crossUp]
  | m :: ms', s :: ss', prev, t' + 1, h1, h2 => by
    have ih := crossUp_getD ms' ss' (some (m, s)) t'
      (by simpa using h1) (by simpa using h2)
    simp only [crossUp, List.getD_cons_succ]
    rw [ih]
    cases t' <;> simp

theorem crossDown_getD : ∀ (ms ss : List ℚ) (prev : Option (ℚ × ℚ)) (t : ℕ),
    t < ms.length → t < ss.length →
    (crossDown prev ms ss).getD t false =
      (decide (ms.getD t 0 < ss.getD t 0) &&
        (match t with
         | 0 => (match prev with
                 | some q => decide (q.1 ≥ q.2)
                 | none => false)
         | t' + 1 => decide (ms.getD t' 0 ≥ ss.getD t' 0)))
  | [], _, _, t, h1, _ => by simp at h1
  | _ :: _, [], _, t, _, h2 => by simp at h2
  | m :: ms', s :: ss', prev, 0, _, _ => by
    cases prev <;> simp [crossDown]
  | m :: ms', s :: ss', prev, t' + 1, h1, h2 => by
    have ih := crossDown_getD ms' ss' (some (m, s)) t'
      (by simpa using h1) (by simpa using h2)
    simp only [crossDown, List.getD_cons_succ]
    rw [ih]
    cases t' <;> simp

/-- Claim C2: the Batch Signal Generator flags Buy at index t exactly when
MACD crosses above the Signal line there (strict inequality at t,
opposite-or-equal at t - 1), flags Sell exactly at the downward crossing,
and the first row carries no Buy and no Sell flag. -/
theorem generate_signals_crossover (fp sp gp : ℕ) (closes : List ℚ) (t : ℕ)
    (ht : t + 1 < closes.length) :
    ((generateSignals fp sp gp closes).buy_signal.getD 0 false = false ∧
     (generateSignals fp sp gp closes).sell_signal.getD 0 false = false) ∧
    ((generateSignals fp sp gp closes).buy_signal.getD (t + 1) false = true ↔
      ((generateSignals fp sp gp closes).macd.getD (t + 1) 0 >
          (generateSignals fp sp gp closes).signal.getD (t + 1) 0 ∧
        (generateSignals fp sp gp closes).macd.getD t 0 ≤
          (generateSignals fp sp gp closes).signal.getD t 0)) ∧
    ((generateSignals fp sp gp closes).sell_signal.getD (t + 1) false = true ↔
      ((generateSignals fp sp gp closes).macd.getD (t + 1) 0 <
          (generateSignals fp sp gp closes).signal.getD (t + 1) 0 ∧
        (generateSignals fp sp gp closes).macd.getD t 0 ≥
          (generateSignals fp sp gp closes).signal.getD t 0)) := by
  have hm := generateSignals_macd_length fp sp gp closes
  have hs := generateSignals_signal_length fp sp gp closes
  have hb : (generateSignals fp sp gp closes).buy_signal
      = crossUp none (generateSignals fp sp gp closes).macd
          (generateSignals fp sp gp closes).signal := rfl
  have hd : (generateSignals fp sp gp closes).sell_signal
      = crossDown none (generateSignals fp sp gp closes).macd
          (generateSignals fp sp gp closes).signal := rfl
  refine ⟨⟨?_, ?_⟩, ?_, ?_⟩
  · rw [hb]
    exact crossUp_getD_zero _ _
  · rw [hd]
    exact crossDown_getD_zero _ _
  · rw [hb, crossUp_getD _ _ _ _ (by omega) (by omega)]
    simp
  · rw [hd, crossDown_getD _ _ _ _ (by omega) (by omega)]
    simp

/-- Witness for C2 at a concrete input: on the close series [1, 2, 3, 1, 1]
with periods (2, 4, 3), the second bar is flagged Buy because MACD crosses
above the signal line there. -/
theorem generate_signals_crossover_witness :
    (generateSignals 2 4 3 [1, 2, 3, 1, 1]).buy_signal.getD 1 false = true := by
  have h := generate_signals_crossover 2 4 3 [1, 2, 3, 1, 1] 0 (by norm_num)
  refine h.2.1.mpr ⟨?_, ?_⟩ <;>
    norm_num [generateSignals, ewmMean, ewmFrom, emaStep, spanAlpha]

theorem tradeTimes_append (trades : List Trade) (tr : Trade) :
    tradeTimes (trades ++ [tr])
      = tradeTimes trades ++ [tr.buy_date, tr.sell_date] := by
  simp [tradeTimes]

theorem profitFold_invariant (quantity : ℕ) :
    ∀ (rows : List Row) (trades : List Trade) (pos : Option Position),
    (rows.map Row.ts).Pairwise (· < ·) →
    (stateTimes (trades, pos)).Pairwise (· < ·) →
    (∀ tr ∈ trades, tr.buy_date < tr.sell_date) →
    (∀ x ∈ stateTimes (trades, pos), ∀ row ∈ rows, x < row.ts) →
    (stateTimes (rows.foldl (profitStep quantity) (trades, pos))).Pairwise
        (· < ·) ∧
    (∀ tr ∈ (rows.foldl (profitStep quantity) (trades, pos)).1,
        tr.buy_date < tr.sell_date)
  | [], trades, pos => by
    intro _ h2 h3 _
    exact ⟨h2, h3⟩
  | row :: rest, trades, pos => by
    intro h1 h2 h3 h4
    rw [List.map_cons, List.pairwise_cons] at h1
    obtain ⟨hrow, h1'⟩ := h1
    rw [List.foldl_cons]
    have hrest : ∀ r ∈ rest, row.ts < r.ts := by
      intro r hr
      exact hrow r.ts (List.mem_map_of_mem Row.ts hr)
    cases pos with
    | none =>
      by_cases hb : row.buy
      · have hstep : profitStep quantity (trades, none) row
            = (trades, some ⟨row.close, row.ts⟩) := by
          simp [profitStep, hb]
        rw [hstep]
        apply profitFold_invariant quantity rest trades
          (some ⟨row.close, row.ts⟩) h1'
        · simp only [stateTimes] at h2 ⊢
          rw [List.append_nil] at h2
          rw [List.pairwise_append]
          refine ⟨h2, List.pairwise_singleton _ _, ?_⟩
          intro x hx y hy
          rw [List.mem_singleton] at hy
          subst hy
          exact h4 x (by simp [stateTimes, hx]) row (by simp)
        · exact h3
        · intro x hx r hr
          simp only [stateTimes, List.mem_append, List.mem_singleton] at hx
          rcases hx with hx | hx
          · exact h4 x (by simp [stateTimes, hx]) r (by simp [hr])
          · subst hx
            exact hrest r hr
      · have hstep : profitStep quantity (trades, none) row
            = (trades, none) := by
          simp [profitStep, hb]
        rw [hstep]
        apply profitFold_invariant quantity rest trades none h1' h2 h3
        intro x hx r hr
        exact h4 x hx r (by simp [hr])
    | some p =>
      by_cases hsell : row.sell
      · have hstep : profitStep quantity (trades, some p) row
            = (trades ++ [mkTrade quantity p row], none) := by
          simp [profitStep, hsell]
        rw [hstep]
        have hpb : p.buy_date < row.ts :=
          h4 p.buy_date (by simp [stateTimes]) row (by simp)
        apply profitFold_invariant quantity rest
          (trades ++ [mkTrade quantity p row]) none h1'
        · simp only [stateTimes] at h2 ⊢
          rw [List.append_nil, tradeTimes_append]
          rw [List.pairwise_append] at h2 ⊢
          obtain ⟨h2t, -, h2x⟩ := h2
          refine ⟨h2t, ?_, ?_⟩
          · simp [mkTrade, hpb]
          · intro x hx y hy
            simp only [mkTrade, List.mem_cons, List.mem_singleton] at hy
            rcases hy with hy | hy | hy
            · subst hy
              exact h2x x hx p.buy_date (by simp)
            · subst hy
              exact h4 x (by simp [stateTimes, hx]) row (by simp)
            · simp at hy
        · intro tr htr
          rw [List.mem_append, List.mem_singleton] at htr
          rcases htr with htr | htr
          · exact h3 tr htr
          · subst htr
            simpa [mkTrade] using hpb
        · intro x hx r hr
          simp [stateTimes, tradeTimes_append, mkTrade] at hx
          rcases hx with hx | hx | hx
          · exact h4 x (by simp [stateTimes, hx]) r (by simp [hr])
          · subst hx
            exact h4 p.buy_date (by simp [stateTimes]) r (by simp [hr])
          · subst hx
            exact hrest r hr
      · have hstep : profitStep quantity (trades, some p) row
            = (trades, some p) := by
          simp [profitStep, hsell]
        rw [hstep]
        apply profitFold_invariant quantity rest trades (some p) h1' h2 h3
        intro x hx r hr
        exact h4 x hx r (by simp [hr])

/-- Claim C3: on a series with strictly increasing timestamps the
Position/Profit Tracker alternates strictly (the flattened buy/sell
timestamps of the emitted trades form a strictly increasing chain, so there
are never two consecutive opens), every trade has buy before sell, total
profit is exactly the sum over emitted (closed) trades so an open position
at series end contributes nothing and closed no trade after the last one,
and a Buy flag while Long or a Sell flag while Flat leaves the tracker
state unchanged. -/
theorem position_tracker_alternation (quantity : ℕ) (rows : List Row)
    (hmono : List.Chain' (· < ·) (rows.map Row.ts)) :
    List.Chain' (· < ·) (tradeTimes (calculateProfit quantity rows).1) ∧
    (∀ tr ∈ (calculateProfit quantity rows).1, tr.buy_date < tr.sell_date) ∧
    (calculateProfit quantity rows).2
      = ((calculateProfit quantity rows).1.map Trade.profit).sum ∧
    (∀ pos, (rows.foldl (profitStep quantity) ([], none)).2 = some pos →
      ∀ tr ∈ (calculateProfit quantity rows).1,
        tr.sell_date < pos.buy_date) ∧
    (∀ (trades : List Trade) (p : Position) (row : Row),
      row.buy = true → row.sell = false →
      profitStep quantity (trades, some p) row = (trades, some p)) ∧
    (∀ (trades : List Trade) (row : Row),
      row.sell = true → row.buy = false →
      profitStep quantity (trades, none) row = (trades, none)) := by
  have hpw : (rows.map Row.ts).Pairwise (· < ·) :=
    List.chain'_iff_pairwise.mp hmono
  obtain ⟨hpair, hbs⟩ := profitFold_invariant quantity rows [] none hpw
    (by simp [stateTimes, tradeTimes]) (by simp)
    (by simp [stateTimes, tradeTimes])
  have hcp : (calculateProfit quantity rows).1
      = (rows.foldl (profitStep quantity) ([], none)).1 := rfl
  simp only [stateTimes] at hpair
  refine ⟨?_, hbs, rfl, ?_, ?_, ?_⟩
  · rw [hcp]
    exact List.chain'_iff_pairwise.mpr (List.pairwise_append.mp hpair).1
  · intro pos hpos tr htr
    rw [hpos] at hpair
    have hcross := (List.pairwise_append.mp hpair).2.2
    exact hcross tr.sell_date
      (List.mem_flatMap.mpr ⟨tr, htr, by simp⟩) pos.buy_date (by simp)
  · intro trades p row hb hsell
    simp [profitStep, hsell]
  · intro trades row hsell hb
    simp [profitStep, hb]

/-- Witness for C3 at a concrete input: a buy-sell-sell-buy flag pattern
produces one closed trade whose flattened timestamps form a strictly
increasing chain. -/
theorem position_tracker_alternation_witness :
    List.Chain' (· < ·) (tradeTimes (calculateProfit 10
      [⟨0, 5, true, false⟩, ⟨1, 7, false, true⟩, ⟨2, 4, false, true⟩,
       ⟨3, 6, true, false⟩]).1) :=
  (position_tracker_alternation 10
    [⟨0, 5, true, false⟩, ⟨1, 7, false, true⟩, ⟨2, 4, false, true⟩,
     ⟨3, 6, true, false⟩] (by simp)).1

/-- Counterexample to claim C5: on an empty TradeLog the early-returned
stats dictionary has no winning_trades and no losing_trades entry at all,
so those metrics are not present with value zero as the claim states. -/
theorem empty_stats_missing_keys :
    "winning_trades" ∉ (getStrategyStats []).map Prod.fst ∧
    "losing_trades" ∉ (getStrategyStats []).map Prod.fst := by
  simp [getStrategyStats]

/-- Claim C5 amended: an empty TradeLog yields, without an error, exactly
the six metrics total_trades, total_profit, win_rate, avg_profit_per_trade,
max_profit and max_loss, each present and equal to zero; the
winning_trades and losing_trades keys are absent from the empty-case
dictionary. -/
theorem empty_stats_all_zero :
    getStrategyStats [] =
      [("total_trades", 0), ("total_profit", 0), ("win_rate", 0),
       ("avg_profit_per_trade", 0), ("max_profit", 0), ("max_loss", 0)] ∧
    "winning_trades" ∉ (getStrategyStats []).map Prod.fst ∧
    "losing_trades" ∉ (getStrategyStats []).map Prod.fst := by
  refine ⟨rfl, ?_, ?_⟩ <;> simp [getStrategyStats]

theorem counts_partition : ∀ (trades : List Trade),
    winningCount trades + losingCount trades + zeroCount trades
      = trades.length
  | [] => rfl
  | tr :: rest => by
    have ih := counts_partition rest
    simp only [winningCount, losingCount, zeroCount, gt_iff_lt] at ih
    simp only [winningCount, losingCount, zeroCount, List.filter_cons,
      List.length_cons]
    rcases lt_trichotomy tr.profit 0 with h | h | h
    · have h1 : ¬ (tr.profit > 0) := by linarith
      have h2 : tr.profit ≠ 0 := ne_of_lt h
      simp [h, h1, h2]
      omega
    · have h1 : ¬ (tr.profit > 0) := by simp [h]
      have h2 : ¬ (tr.profit < 0) := by simp [h]
      simp [h, h1, h2]
      omega
    · have h1 : ¬ (tr.profit < 0) := by linarith
      have h2 : tr.profit ≠ 0 := ne_of_gt h
      simp [h, h1, h2]
      omega

/-- Claim C8: on a nonempty TradeLog the aggregator reports
win_rate = 100 * winning / total, which lies in [0, 100]; the winning and
losing counts count trades by strict profit sign, so together they never
exceed total_trades and zero-profit trades fall in neither. -/
theorem strategy_stats_bounds (trades : List Trade) (h : trades ≠ []) :
    ("win_rate", ((winningCount trades : ℚ) / trades.length) * 100)
        ∈ getStrategyStats trades ∧
    0 ≤ ((winningCount trades : ℚ) / trades.length) * 100 ∧
    ((winningCount trades : ℚ) / trades.length) * 100 ≤ 100 ∧
    ("winning_trades", (winningCount trades : ℚ)) ∈ getStrategyStats trades ∧
    ("losing_trades", (losingCount trades : ℚ)) ∈ getStrategyStats trades ∧
    ("total_trades", (trades.length : ℚ)) ∈ getStrategyStats trades ∧
    winningCount trades + losingCount trades ≤ trades.length ∧
    winningCount trades + losingCount trades + zeroCount trades
      = trades.length := by
  have hne : trades.isEmpty = false := by
    simp [List.isEmpty_iff, h]
  have hlen : 0 < trades.length := List.length_pos.mpr h
  have hwin : winningCount trades ≤ trades.length :=
    List.length_filter_le _ _
  have hpart := counts_partition trades
  have hratio : (winningCount trades : ℚ) / trades.length ≤ 1 := by
    rw [div_le_one (by exact_mod_cast hlen)]
    exact_mod_cast hwin
  refine ⟨?_, ?_, ?_, ?_, ?_, ?_, ?_, hpart⟩
  · simp [getStrategyStats, hne, winningCount]
  · positivity
  · calc ((winningCount trades : ℚ) / trades.length) * 100
        ≤ 1 * 100 := by
          apply mul_le_mul_of_nonneg_right hratio
          norm_num
      _ = 100 := by norm_num
  · simp [getStrategyStats, hne, winningCount]
  · simp [getStrategyStats, hne, losingCount]
  · simp [getStrategyStats, hne]
  · omega

/-- Witness for C8 at a concrete input: two trades, one winning and one
losing, partition into 2 of the 2 total with no zero-profit trade. -/
theorem strategy_stats_bounds_witness :
    winningCount [⟨0, 1, 5, 7, 20, 40⟩, ⟨2, 3, 9, 4, -50, -5⟩]
        + losingCount [⟨0, 1, 5, 7, 20, 40⟩, ⟨2, 3, 9, 4, -50, -5⟩]
        + zeroCount [⟨0, 1, 5, 7, 20, 40⟩, ⟨2, 3, 9, 4, -50, -5⟩]
      = 2 :=
  (strategy_stats_bounds
    [⟨0, 1, 5, 7, 20, 40⟩, ⟨2, 3, 9, 4, -50, -5⟩]
    (by simp)).2.2.2.2.2.2.2

/-- Claim C7: constructing the strategy fails, naming the violated
constraint, when the series lacks a close column, has fewer than the 50
required bars, contains a missing (NaN) close, contains a non-positive
close, or when fast_period is not strictly less than slow_period. -/
theorem validate_inputs_errors (df : PriceDF) (q fp sp gp : ℕ) :
    (df.rows ≠ [] → "close" ∉ df.cols →
      mkStrategy df q fp sp gp = .error .missingCloseColumn) ∧
    ("close" ∈ df.cols → df.rows ≠ [] → df.rows.length < MIN_DATA_POINTS →
      mkStrategy df q fp sp gp = .error .insufficientData) ∧
    ("close" ∈ df.cols → MIN_DATA_POINTS ≤ df.rows.length → q ≠ 0 →
      fp ≠ 0 → sp ≠ 0 → gp ≠ 0 → sp ≤ fp →
      mkStrategy df q fp sp gp = .error .fastNotLessThanSlow) ∧
    ("close" ∈ df.cols → MIN_DATA_POINTS ≤ df.rows.length → q ≠ 0 →
      fp ≠ 0 → sp ≠ 0 → gp ≠ 0 → fp < sp →
      (∃ r ∈ df.rows, r.2 = none) →
      mkStrategy df q fp sp gp = .error .nanClose) ∧
    ("close" ∈ df.cols → MIN_DATA_POINTS ≤ df.rows.length → q ≠ 0 →
      fp ≠ 0 → sp ≠ 0 → gp ≠ 0 → fp < sp →
      (∀ r ∈ df.rows, r.2 ≠ none) →
      (∃ r ∈ df.rows, ∃ v, r.2 = some v ∧ v ≤ 0) →
      mkStrategy df q fp sp gp = .error .nonPositiveClose) := by
  refine ⟨?_, ?_, ?_, ?_, ?_⟩
  · intro hne hno
    have he : df.rows.isEmpty = false := by simp [List.isEmpty_iff, hne]
    simp [mkStrategy, validateInputs, he, hno]
  · intro hc hne h50
    have he : df.rows.isEmpty = false := by simp [List.isEmpty_iff, hne]
    simp [mkStrategy, validateInputs, he, hc, h50]
  · intro hc h50 hq hf hs hg hsl
    have hne : df.rows ≠ [] := by
      intro hr
      rw [hr] at h50
      simp [MIN_DATA_POINTS] at h50
    have he : df.rows.isEmpty = false := by simp [List.isEmpty_iff, hne]
    simp [mkStrategy, validateInputs, he, hc, not_lt.mpr h50, hq, hf, hs,
      hg, hsl]
  · intro hc h50 hq hf hs hg hsl hnan
    have hne : df.rows ≠ [] := by
      intro hr
      rw [hr] at h50
      simp [MIN_DATA_POINTS] at h50
    have he : df.rows.isEmpty = false := by simp [List.isEmpty_iff, hne]
    have hany : df.rows.any (fun r => r.2.isNone) = true := by
      obtain ⟨r, hr, hr2⟩ := hnan
      exact List.any_eq_true.mpr ⟨r, hr, by simp [hr2]⟩
    simp [mkStrategy, validateInputs, he, hc, not_lt.mpr h50, hq, hf, hs,
      hg, not_le.mpr hsl, hany]
  · intro hc h50 hq hf hs hg hsl hnonan hpos
    have hne : df.rows ≠ [] := by
      intro hr
      rw [hr] at h50
      simp [MIN_DATA_POINTS] at h50
    have he : df.rows.isEmpty = false := by simp [List.isEmpty_iff, hne]
    have hnoany : df.rows.any (fun r => r.2.isNone) = false := by
      rw [List.any_eq_false]
      intro r hr
      simp [Option.isNone_iff_eq_none]
      exact hnonan r hr
    have hany : df.rows.any (fun r => r.2.getD 1 ≤ 0) = true := by
      obtain ⟨r, hr, v, hv, hv0⟩ := hpos
      exact List.any_eq_true.mpr ⟨r, hr, by simp [hv, hv0]⟩
    simp [mkStrategy, validateInputs, he, hc, not_lt.mpr h50, hq, hf, hs,
      hg, not_le.mpr hsl, hnoany, hany]

/-- Witness for C7 at a concrete input: a one-row frame without a close
column is rejected for the missing column. -/
theorem validate_inputs_errors_witness :
    mkStrategy ⟨["open"], [(0, some 1)]⟩ 100 12 26 9
      = .error .missingCloseColumn :=
  (validate_inputs_errors ⟨["open"], [(0, some 1)]⟩ 100 12 26 9).1
    (by simp) (by simp)

end Strategy

/-! ## Theorems: aggregation and multi-timeframe orchestration -/

namespace Backtest

open Strategy

theorem resample10mGo_all (b : Bar) :
    ∀ (rest acc : List Bar),
    (∀ x ∈ rest, x.minute / 10 = b.minute / 10) →
    resample10mGo b acc rest = [aggGroup (b.minute / 10) b (acc ++ rest)]
  | [], acc, _ => by simp [resample10mGo]
  | x :: xs, acc, h => by
    simp only [resample10mGo]
    rw [if_pos (h x (by simp)),
      resample10mGo_all b xs (acc ++ [x]) (fun y hy => h y (by simp [hy]))]
    simp

theorem tenBars_eq (s : ℕ) :
    tenBars s = [⟨s, 1, 1, 1, 1, 1⟩, ⟨s + 1, 2, 2, 2, 2, 2⟩,
      ⟨s + 2, 3, 3, 3, 3, 3⟩, ⟨s + 3, 4, 4, 4, 4, 4⟩, ⟨s + 4, 5, 5, 5, 5, 5⟩,
      ⟨s + 5, 6, 6, 6, 6, 6⟩, ⟨s + 6, 7, 7, 7, 7, 7⟩, ⟨s + 7, 8, 8, 8, 8, 8⟩,
      ⟨s + 8, 9, 9, 9, 9, 9⟩, ⟨s + 9, 10, 10, 10, 10, 10⟩] := by
  simp only [tenBars, List.range_succ, List.range_zero, List.map_append,
    List.map_cons, List.map_nil, List.nil_append, List.cons_append]
  norm_num

/-- Counterexample to claim C6: ten one-minute bars with OHLCV values
[1..10] starting at minute 5 straddle a 10-minute bucket boundary, so the
aggregation emits two bars, not exactly one. -/
theorem aggregate_to_10m_misaligned_counterexample :
    (tenBars 5).length = 10 ∧
    ((aggregateTo10m (tenBars 5)).getD []).length = 2 :=
  ⟨rfl, rfl⟩

/-- Claim C6 amended: given exactly 10 one-minute bars with OHLCV values
[1..10] starting at a 10-minute boundary (so that all ten fall into one
resampling bucket), 10-minute aggregation produces exactly one output bar
whose open is the first bar's open (1), close the tenth bar's close (10),
high the maximum (10), low the minimum (1) and volume the sum (55). -/
theorem aggregate_to_10m_aligned (k : ℕ) :
    aggregateTo10m (tenBars (10 * k)) =
      some [{ minute := 10 * k, opn := 1, high := 10, low := 1, close := 10,
              volume := 55 }] := by
  have hlen : (tenBars (10 * k)).length = 10 := by
    rw [tenBars_eq]
    rfl
  rw [aggregateTo10m, if_neg (by omega), tenBars_eq]
  simp only [resample10m]
  rw [resample10mGo_all _ _ [] (by
    intro x hx
    simp only [List.mem_cons, List.not_mem_nil, or_false] at hx
    rcases hx with rfl | rfl | rfl | rfl | rfl | rfl | rfl | rfl | rfl
      <;> simp <;> omega)]
  simp only [List.nil_append, aggGroup, List.map_cons, List.map_nil]
  norm_num

theorem bestFold_spec :
    ∀ (vs : List (String × TFEntry)) (v : String × TFEntry),
    ((vs.foldl (fun best x =>
        if x.2.totalProfit > best.2.totalProfit then x else best) v) = v ∨
     (vs.foldl (fun best x =>
        if x.2.totalProfit > best.2.totalProfit then x else best) v) ∈ vs) ∧
    v.2.totalProfit ≤ (vs.foldl (fun best x =>
        if x.2.totalProfit > best.2.totalProfit then x else best) v).2.totalProfit ∧
    (∀ y ∈ vs, y.2.totalProfit ≤ (vs.foldl (fun best x =>
        if x.2.totalProfit > best.2.totalProfit then x else best) v).2.totalProfit)
  | [], v => ⟨Or.inl rfl, le_refl _, by simp⟩
  | x :: xs, v => by
    rw [List.foldl_cons]
    by_cases h : x.2.totalProfit > v.2.totalProfit
    · rw [if_pos h]
      obtain ⟨hmem, hle, hall⟩ := bestFold_spec xs x
      refine ⟨?_, le_trans (le_of_lt h) hle, ?_⟩
      · rcases hmem with hmem | hmem
        · exact Or.inr (by simp [hmem])
        · exact Or.inr (by simp [hmem])
      · intro y hy
        rcases List.mem_cons.mp hy with rfl | hy
        · exact hle
        · exact hall y hy
    · rw [if_neg h]
      obtain ⟨hmem, hle, hall⟩ := bestFold_spec xs v
      refine ⟨?_, hle, ?_⟩
      · rcases hmem with hmem | hmem
        · exact Or.inl hmem
        · exact Or.inr (by simp [hmem])
      · intro y hy
        rcases List.mem_cons.mp hy with rfl | hy
        · exact le_trans (not_lt.mp h) hle
        · exact hall y hy

theorem bestPerforming_spec (results : List (String × TFEntry))
    (b : String × TFEntry) (hb : bestPerforming results = some b) :
    b ∈ results ∧ b.2.hasError = false ∧
    ∀ r ∈ results, r.2.hasError = false →
      r.2.totalProfit ≤ b.2.totalProfit := by
  unfold bestPerforming at hb
  cases hfil : results.filter (fun r => ¬ r.2.hasError) with
  | nil =>
    rw [hfil] at hb
    exact absurd hb (by simp)
  | cons v vs =>
    rw [hfil] at hb
    obtain ⟨hmem, hlev, hall⟩ := bestFold_spec vs v
    have hbval : vs.foldl (fun best x =>
        if x.2.totalProfit > best.2.totalProfit then x else best) v = b := by
      simpa using hb
    have hbfil : b ∈ results.filter (fun r => ¬ r.2.hasError) := by
      rw [hfil, ← hbval]
      rcases hmem with hmem | hmem
      · rw [hmem]
        exact List.mem_cons_self _ _
      · exact List.mem_cons_of_mem _ hmem
    obtain ⟨hbres, hbok⟩ := List.mem_filter.mp hbfil
    refine ⟨hbres, by simpa using hbok, ?_⟩
    intro r hr hrok
    have hrfil : r ∈ results.filter (fun r => ¬ r.2.hasError) :=
      List.mem_filter.mpr ⟨hr, by simp [hrok]⟩
    rw [hfil] at hrfil
    rw [← hbval]
    rcases List.mem_cons.mp hrfil with rfl | hrfil
    · exact hlev
    · exact hall r hrfil

/-- Counterexample to claim C4: with the 1h load failing outright and the
1d timeframe loading a 30-bar frame, the 1d strategy application fails
validation (insufficient data), yet its results entry is a normal
zero-trade entry without any error field, and the best-performing
selection even picks that failed timeframe. -/
theorem multi_timeframe_swallowed_failure_counterexample :
    mkStrategy smallDF30 100 12 26 9
      = .error Strategy.ValidationError.insufficientData ∧
    runMultiTimeframe
        [("1h", LoadOutcome.missing), ("1d", LoadOutcome.found smallDF30)]
      = [("1h", TFEntry.err "NoneType object has no attribute empty"),
         ("1d", TFEntry.ok 30 [] 0 [])] ∧
    TFEntry.hasError (TFEntry.ok 30 [] 0 []) = false ∧
    bestPerforming (runMultiTimeframe
        [("1h", LoadOutcome.missing), ("1d", LoadOutcome.found smallDF30)])
      = some ("1d", TFEntry.ok 30 [] 0 []) :=
  ⟨rfl, rfl, rfl, rfl⟩

/-- Claim C4 amended: no per-timeframe failure aborts the orchestration:
every timeframe whose load fails outright still contributes an entry with
an error field, every timeframe with nonempty data contributes its
strategy results independently of the others, a failure inside strategy
application is swallowed into a zero-trade entry without an error field,
and the best-performing selection considers only entries without an error
field, maximising total_profit among them. -/
theorem multi_timeframe_error_isolation (loads : List (String × LoadOutcome)) :
    (∀ tf ∈ loads, tf.2 = LoadOutcome.missing →
      (tf.1, TFEntry.err "NoneType object has no attribute empty")
        ∈ runMultiTimeframe loads) ∧
    (∀ tf df, (tf, LoadOutcome.found df) ∈ loads → df.rows ≠ [] →
      (tf, TFEntry.ok df.rows.length (applyStrategies df).1
          (applyStrategies df).2.1 (applyStrategies df).2.2)
        ∈ runMultiTimeframe loads) ∧
    (∀ df e, mkStrategy df 100 12 26 9 = .error e →
      applyStrategies df = ([], 0, [])) ∧
    (∀ b, bestPerforming (runMultiTimeframe loads) = some b →
      b ∈ runMultiTimeframe loads ∧ b.2.hasError = false ∧
      ∀ r ∈ runMultiTimeframe loads, r.2.hasError = false →
        r.2.totalProfit ≤ b.2.totalProfit) := by
  refine ⟨?_, ?_, ?_, ?_⟩
  · intro tf htf hmiss
    refine List.mem_filterMap.mpr ⟨tf, htf, ?_⟩
    rw [hmiss]
    rfl
  · intro tf df htf hne
    refine List.mem_filterMap.mpr ⟨(tf, LoadOutcome.found df), htf, ?_⟩
    have he : df.rows.isEmpty = false := by simp [List.isEmpty_iff, hne]
    simp [analyzeTimeframe, he]
  · intro df e herr
    simp [applyStrategies, herr]
  · intro b hb
    exact bestPerforming_spec _ b hb

/-- Witness for C6 at a concrete input: the ten bars starting at minute 0
aggregate to the single expected 10-minute bar. -/
theorem aggregate_to_10m_aligned_witness :
    aggregateTo10m (tenBars 0) =
      some [{ minute := 0, opn := 1, high := 10, low := 1, close := 10,
              volume := 55 }] := by
  simpa using aggregate_to_10m_aligned 0

/-- Witness for C4 at a concrete input: a run whose only timeframe fails to
load still finishes and records an error entry for it. -/
theorem multi_timeframe_error_isolation_witness :
    ("1h", TFEntry.err "NoneType object has no attribute empty")
      ∈ runMultiTimeframe [("1h", LoadOutcome.missing)] :=
  (multi_timeframe_error_isolation [("1h", LoadOutcome.missing)]).1
    ("1h", LoadOutcome.missing) (by simp) rfl

end Backtest

end TradingBot
